import Mathlib

/-!
Verification of the `uproot.models.TRef` module: the versionless decoders
`Model_TRef` and `Model_TRefArray`, their strided interpretation, and their
awkward-form (columnar schema) builders.

The byte-cursor (`uproot.source.cursor.Cursor`), the string container
(`uproot.containers.AsString`), the awkward form constructors and the forth
generator are external collaborators that are not part of this module; they
are modelled from the specification and marked as such.  Everything else is
a direct translation of `src/uproot/models/TRef.py`.
-/

namespace Uproot

/-- The error taxonomy of the specification (section 7): the member-wise
serialization variant is rejected, short reads are fatal, and structurally
invalid values are corrupt records.  In the source, the member-wise rejection
is raised as a `NotImplementedError`; the spec names it
`UnsupportedSerializationMode`. -/
inductive Err where
  | unsupportedSerializationMode
  | truncatedInput
  | corruptRecord
  deriving DecidableEq, Repr

/-- Modelled from the spec: the external ByteReader is a sequential,
offset-tracked, bounds-checked reader over a byte stream.  Bytes are
represented as natural numbers (each `< 256` in a well-formed stream). -/
structure Reader where
  data : List Nat
  index : Nat
  deriving DecidableEq, Repr

deriving instance DecidableEq for Except

/-- The big-endian 4-byte unsigned value of the bytes of `l` at positions
`i, i+1, i+2, i+3` (out-of-range positions read as 0; a bounds check is
performed by every primitive before calling this). -/
def be4 (l : List Nat) (i : Nat) : Nat :=
  l.getD i 0 * 2 ^ 24 + l.getD (i + 1) 0 * 2 ^ 16 + l.getD (i + 2) 0 * 2 ^ 8
    + l.getD (i + 3) 0

/-- Reinterpret a 4-byte unsigned value as a big-endian two's-complement
signed 32-bit integer. -/
def decodeSigned32 (n : Nat) : Int :=
  if n < 2 ^ 31 then (n : Int) else (n : Int) - 2 ^ 32

/-- The `count` consecutive big-endian signed 32-bit values of `l` starting
at byte position `i`. -/
def readI4Count (l : List Nat) (i : Nat) : Nat → List Int
  | 0 => []
  | n + 1 => decodeSigned32 (be4 l i) :: readI4Count l (i + 4) n

/-- Modelled from the spec: bounds-checked fixed-count skip; the cursor
advances by `n` bytes or the read fails with `TruncatedInput`. -/
def Reader.skip (r : Reader) (n : Nat) : Except Err Reader :=
  if r.index + n ≤ r.data.length then .ok { r with index := r.index + n }
  else .error .truncatedInput

/-- Modelled from the spec: bounds-checked single-byte read. -/
def Reader.readByte (r : Reader) : Except Err (Nat × Reader) :=
  if r.index + 1 ≤ r.data.length then
    .ok (r.data.getD r.index 0, { r with index := r.index + 1 })
  else .error .truncatedInput

/-- Modelled from the spec: bounds-checked big-endian 4-byte unsigned read. -/
def Reader.readBe4 (r : Reader) : Except Err (Nat × Reader) :=
  if r.index + 4 ≤ r.data.length then
    .ok (be4 r.data r.index, { r with index := r.index + 4 })
  else .error .truncatedInput

/-- Modelled from the spec: bounds-checked raw read of `n` bytes. -/
def Reader.readBytes (r : Reader) (n : Nat) : Except Err (List Nat × Reader) :=
  if r.index + n ≤ r.data.length then
    .ok ((r.data.drop r.index).take n, { r with index := r.index + n })
  else .error .truncatedInput

/-- Modelled from the spec: the container format's length-prefixed string
convention, reused verbatim from the external string-reading primitive — a
short length byte, with the escape value 255 triggering a wide big-endian
4-byte length field, followed by that many raw bytes. -/
def Reader.string (r : Reader) : Except Err (List Nat × Reader) :=
  match r.readByte with
  | .error e => .error e
  | .ok (b, r1) =>
    if b = 255 then
      match r1.readBe4 with
      | .error e => .error e
      | .ok (n, r2) => r2.readBytes n
    else r1.readBytes b

/-- The fixed-width field read for `_trefarray_format1 = Struct(">i")`:
one big-endian 4-byte signed integer. -/
def Reader.fieldI4 (r : Reader) : Except Err (Int × Reader) :=
  match r.readBe4 with
  | .error e => .error e
  | .ok (n, r1) => .ok (decodeSigned32 n, r1)

/-- The fixed-width field read for `_tref_format1 = Struct(">xxIxxxxxx")`:
2 pad bytes, one big-endian 4-byte unsigned integer, 6 pad bytes — 12 bytes
total, returning the unsigned value at offset 2. -/
def Reader.fieldTRefFormat1 (r : Reader) : Except Err (Nat × Reader) :=
  if r.index + 12 ≤ r.data.length then
    .ok (be4 r.data (r.index + 2), { r with index := r.index + 12 })
  else .error .truncatedInput

/-- Modelled from the spec: the external ByteReader's bounds-checked raw
fixed-type array read of `count` big-endian signed 32-bit elements.  The
read covers the byte range from the cursor to `cursor + 4*count`; a range
whose end precedes its start (negative `count`) holds no elements, and the
cursor is left at the end of the range (clamped at 0). -/
def Reader.array (r : Reader) (count : Int) : Except Err (List Int × Reader) :=
  if 0 ≤ count then
    if r.index + 4 * count.toNat ≤ r.data.length then
      .ok (readI4Count r.data r.index count.toNat,
        { r with index := r.index + 4 * count.toNat })
    else .error .truncatedInput
  else
    .ok ([], { r with index := ((r.index : Int) + 4 * count).toNat })

/-- The decoded members of a `TRef`: only the reference number is
deserialized (`self._ref`). -/
structure Model_TRef where
  ref : Nat
  deriving DecidableEq, Repr

/-- `Model_TRef.read_members`: if `is_memberwise`, raise the member-wise
rejection before touching the cursor; otherwise read `_tref_format1`
(`self._ref = cursor.field(chunk, _tref_format1, context)`).  The returned
reader is the cursor after the call (unchanged when the member-wise error
is raised, since it is raised before any read). -/
def Model_TRef.read_members (memberwise : Bool) (r : Reader) :
    Except Err Model_TRef × Reader :=
  if memberwise then (.error .unsupportedSerializationMode, r)
  else
    match r.fieldTRefFormat1 with
    | .error e => (.error e, r)
    | .ok (v, r1) => (.ok ⟨v⟩, r1)

/-- The decoded members of a `TRefArray`: `self._members["fName"]`,
`self._members["fSize"]` and the trailing `self._data` array. -/
structure Model_TRefArray where
  fName : List Nat
  fSize : Int
  data : List Int
  deriving DecidableEq, Repr

/-- `Model_TRefArray.read_members`: if `is_memberwise`, raise the
member-wise rejection before touching the cursor; otherwise
`cursor.skip(10)`, read the name string, read `_trefarray_format1` as
`fSize`, `cursor.skip(6)`, and read `fSize` big-endian int32 values as
`self._data`.  (The forth bookkeeping at the top of the source function
mutates only the external forth generator and neither the cursor nor the
decoded members, so it does not appear in the decode state.)  On a failed
read the record is abandoned with no partial-record return. -/
def Model_TRefArray.read_members (memberwise : Bool) (r : Reader) :
    Except Err Model_TRefArray × Reader :=
  if memberwise then (.error .unsupportedSerializationMode, r)
  else
    match r.skip 10 with
    | .error e => (.error e, r)
    | .ok r1 =>
      match r1.string with
      | .error e => (.error e, r)
      | .ok (nm, r2) =>
        match r2.fieldI4 with
        | .error e => (.error e, r)
        | .ok (sz, r3) =>
          match r3.skip 6 with
          | .error e => (.error e, r)
          | .ok r4 =>
            match r4.array sz with
            | .error e => (.error e, r)
            | .ok (arr, r5) => (.ok ⟨nm, sz, arr⟩, r5)

/-- The `refs` property: `return self._data`. -/
def Model_TRefArray.refs (m : Model_TRefArray) : List Int := m.data

/-- `__getitem__`: `return self._data[where]` (partial on out-of-range
indices, hence `Option`). -/
def Model_TRefArray.getitem (m : Model_TRefArray) (i : Nat) : Option Int :=
  m.data[i]?

/-- `__len__`: `return len(self._data)`. -/
def Model_TRefArray.len (m : Model_TRefArray) : Nat := m.data.length

/-! ### Encoders

A "valid byte stream encoding an ArrayRef" is characterised by the encoder
below, which inverts the wire layout of section 6 of the spec: the big-endian
byte encodings of the fixed-width fields and the length-prefixed string
convention (short length byte, escape value 255 followed by a wide 4-byte
big-endian length). -/

/-- The 4 big-endian bytes of an unsigned 32-bit value. -/
def be4enc (n : Nat) : List Nat :=
  [n / 2 ^ 24 % 256, n / 2 ^ 16 % 256, n / 2 ^ 8 % 256, n % 256]

/-- The 4 big-endian bytes of a two's-complement signed 32-bit value. -/
def encInt32 (v : Int) : List Nat := be4enc (v % 2 ^ 32).toNat

/-- The length-prefixed encoding of a name: a short length byte when the
length is below the escape value 255, otherwise the escape byte followed by
a wide big-endian 4-byte length, then the raw name bytes. -/
def encodeName (name : List Nat) : List Nat :=
  if name.length < 255 then name.length :: name
  else 255 :: (be4enc name.length ++ name)

/-- `n` consecutive big-endian signed 32-bit values. -/
def encodeRefs : List Int → List Nat
  | [] => []
  | v :: t => encInt32 v ++ encodeRefs t

/-- A valid ArrayRef wire record: a 10-byte reserved header, the
length-prefixed name, the declared element count (equal to the number of
refs), a 6-byte reserved region, and the refs as big-endian int32 values. -/
def encodeArrayRef (hdr name mid : List Nat) (refs : List Int) : List Nat :=
  hdr ++ (encodeName name ++ (encInt32 (refs.length : Int) ++ (mid ++ encodeRefs refs)))

/-- An ArrayRef wire record with an arbitrary declared size field (used to
examine streams whose size does not match any ref payload, e.g. negative
sizes); no trailing ref payload follows. -/
def encodeArrayRefRaw (hdr name mid : List Nat) (sz : Int) : List Nat :=
  hdr ++ (encodeName name ++ (encInt32 sz ++ mid))

/-! ### Strided interpretation -/

/-- A numpy dtype as used by the strided interpretation: byte order and
item size (`">u2"` is `⟨true, "u", 2⟩`). -/
structure NumpyDtype where
  bigEndian : Bool
  kind : String
  itemsize : Nat
  deriving DecidableEq, Repr

/-- The result of `strided_interpretation`: an `AsStridedObjects` carrying
the ordered member list. -/
structure AsStridedObjects where
  members : List (String × NumpyDtype)
  deriving DecidableEq, Repr

/-- `Model_TRef.strided_interpretation`: appends, in order, `@pidf` as
`>u2`, `ref` as `>u4`, `@other1` as `>u2`, `@other2` as `>u4`. -/
def Model_TRef.strided_interpretation : AsStridedObjects :=
  { members :=
      [("@pidf", ⟨true, "u", 2⟩), ("ref", ⟨true, "u", 4⟩),
       ("@other1", ⟨true, "u", 2⟩), ("@other2", ⟨true, "u", 4⟩)] }

/-! ### Awkward forms (columnar schema descriptors) -/

/-- A parameter value attached to a schema node.  The `uproot` dictionary
attached to string nodes always has exactly the keys `as`, `header` and
`length_bytes` in this module, so it is modelled as a flat constructor
`uprootDict as header length_bytes`. -/
inductive ParamVal where
  | str : String → ParamVal
  | uprootDict : String → Bool → String → ParamVal
  deriving DecidableEq, Repr

/-- A schema node (awkward form): a scalar leaf (`NumpyForm`, carrying the
normalized primitive name — awkward normalizes both `numpy.dtype("u1")` and
the legacy itemsize-1 format `"B"` to the primitive `uint8`), a list with
offsets (`ListOffsetForm`, carrying the context's `index_format`), or a
record (`RecordForm`).  Each node carries its parameters and its optional
`form_key`. -/
inductive Form where
  | numpy : String → List (String × ParamVal) → Option String → Form
  | listOffset : String → Form → List (String × ParamVal) → Option String → Form
  | record : List (String × Form) → List (String × ParamVal) → Option String → Form

/-- The `form_key` of a schema node. -/
def Form.formKey : Form → Option String
  | .numpy _ _ k => k
  | .listOffset _ _ _ k => k
  | .record _ _ k => k

/-- The ordered field list of a record node (empty for non-records). -/
def Form.recordContents : Form → List (String × Form)
  | .record cs _ _ => cs
  | _ => []

mutual
/-- Strip the bytecode-only `form_key` metadata from every node of a
schema tree, leaving the logical fields and nesting. -/
def Form.stripKeys : Form → Form
  | .numpy d p _ => .numpy d p none
  | .listOffset i c p _ => .listOffset i (Form.stripKeys c) p none
  | .record cs p _ => .record (stripKeysFields cs) p none

/-- Strip `form_key` metadata from every field of a record. -/
def stripKeysFields : List (String × Form) → List (String × Form)
  | [] => []
  | (n, f) :: t => (n, Form.stripKeys f) :: stripKeysFields t
end

/-- Modelled from the spec: the forth (bytecode) generator's per-pass
mutable state — a monotonically increasing node-key counter
(`get_last_key`), the generated-code registry keyed by record class
(`forth_code`), and the registered pre/post extraction-program hooks.
Record classes are identified by a numeric id (`id(cls)` in the source). -/
structure ForthObj where
  lastKey : Nat
  forthCode : List Nat
  pre : List Nat
  post : List Nat
  deriving DecidableEq, Repr

/-- Modelled from the spec: `get_last_key` returns the current value of the
node-key counter. -/
def ForthObj.getLastKey (f : ForthObj) : Nat := f.lastKey

/-- Modelled from the spec: `init_keys cls a b` reserves the contiguous key
block from `a` to `b` for a record class; the counter advances to `b` so a
later allocation starts after the block (keys are never reused or skipped
within a pass). -/
def ForthObj.initKeys (f : ForthObj) (a b : Nat) : ForthObj :=
  let _ := a
  { f with lastKey := b }

/-- Modelled from the spec: the build context threaded through one schema
build pass — the optional forth generator (its presence selects bytecode
mode), the `index_format` chosen by the caller, the mutable `prev-key`
pointer linking list nodes to their content nodes, and the
`tobject_header` flag. -/
structure AwkwardContext where
  forth : Option ForthObj
  indexFormat : String
  prevKey : Option String
  tobjectHeader : Bool
  deriving DecidableEq, Repr

/-- The textual node key `"node<k>"` used in `form_key` fields. -/
def nodeKeyName (k : Nat) : String := "node" ++ toString k

/-- Modelled from the spec: `uproot._util.awkward_form(dtype, file,
context)` for a plain numeric dtype — a scalar schema node with no
parameters and no node key (native mode carries no key metadata). -/
def awkward_form_util (dtype : String) : Form := Form.numpy dtype [] none

/-- Modelled from the spec: `uproot._util.awkward_form_forth(dtype, file,
context)` for a plain numeric dtype — a scalar schema node whose node key
is the context's `prev-key` pointer. -/
def awkward_form_forth (dtype : String) (ctx : AwkwardContext) : Form :=
  Form.numpy dtype [] ctx.prevKey

/-- Modelled from the spec: `AsString(header, typename="TString")
.awkward_form(file, context)` — the external string container's columnar
schema: a list of `uint8` characters with the string parameters and the
`uproot` dictionary (`as = "string"`, the container's header flag, and its
default `length_bytes = "1-5"`); no node keys in native mode. -/
def AsString_awkward_form (header : Bool) (lengthBytes : String)
    (ctx : AwkwardContext) : Form :=
  Form.listOffset ctx.indexFormat
    (Form.numpy "uint8" [("__array__", ParamVal.str "char")] none)
    [("__array__", ParamVal.str "string"),
     ("uproot", ParamVal.uprootDict "string" header lengthBytes)]
    none

/-- `Model_TRef.awkward_form`: a `RecordForm` with parameters
`__record__ = "TRef"`; its contents hold the four header fields `@pidf`
(u2), `ref` (u4), `@other1` (u2), `@other2` (u4) only when
`context["tobject_header"]` is true, and are empty otherwise. -/
def Model_TRef.awkward_form (ctx : AwkwardContext) : Form :=
  let contents : List (String × Form) :=
    if ctx.tobjectHeader then
      [("@pidf", awkward_form_util "uint16"),
       ("ref", awkward_form_util "uint32"),
       ("@other1", awkward_form_util "uint16"),
       ("@other2", awkward_form_util "uint32")]
    else []
  Form.record contents [("__record__", ParamVal.str "TRef")] none

/-- `Model_TRefArray.awkward_form`, both modes.  In bytecode mode (a forth
generator present in the context): register the class in `forth_code`, read
the key counter, reserve the block `key+1 .. key+6` via `init_keys`,
register the pre hook, build `fName` (list node `key+2`, char content node
`key+3`), set `prev-key` to node `key+4` and build `fSize` through
`awkward_form_forth`, set `prev-key` to node `key+6` and build the `refs`
list (list node `key+5`, content through `awkward_form_forth`), register
the post hook, delete `prev-key` from the context, and return the record
node with key `key+1`.  In native mode: `fName` via the external string
container, `fSize` and the `refs` content via `awkward_form`, no node keys,
context untouched. -/
def Model_TRefArray.awkward_form (cls : Nat) (ctx : AwkwardContext) :
    Form × AwkwardContext :=
  match ctx.forth with
  | some forthObj0 =>
    let f1 := { forthObj0 with forthCode := forthObj0.forthCode ++ [cls] }
    let key := f1.getLastKey
    let f2 := f1.initKeys (key + 1) (key + 6)
    let f3 := { f2 with pre := f2.pre ++ [cls] }
    let fNameForm := Form.listOffset ctx.indexFormat
      (Form.numpy "uint8" [("__array__", ParamVal.str "char")]
        (some (nodeKeyName (key + 3))))
      [("__array__", ParamVal.str "string"),
       ("uproot", ParamVal.uprootDict "string" false "1-5")]
      (some (nodeKeyName (key + 2)))
    let ctx1 := { ctx with forth := some f3, prevKey := some (nodeKeyName (key + 4)) }
    let fSizeForm := awkward_form_forth "int32" ctx1
    let ctx2 := { ctx1 with prevKey := some (nodeKeyName (key + 6)) }
    let refsForm := Form.listOffset ctx.indexFormat
      (awkward_form_forth "int32" ctx2) [] (some (nodeKeyName (key + 5)))
    let f4 := { f3 with post := f3.post ++ [cls] }
    let ctx3 := { ctx2 with forth := some f4, prevKey := none }
    (Form.record [("fName", fNameForm), ("fSize", fSizeForm), ("refs", refsForm)]
      [("__record__", ParamVal.str "TRefArray")] (some (nodeKeyName (key + 1))),
     ctx3)
  | none =>
    let fNameForm := AsString_awkward_form false "1-5" ctx
    let fSizeForm := awkward_form_util "int32"
    let refsForm := Form.listOffset ctx.indexFormat (awkward_form_util "int32") [] none
    (Form.record [("fName", fNameForm), ("fSize", fSizeForm), ("refs", refsForm)]
      [("__record__", ParamVal.str "TRefArray")] none,
     ctx)

/-- A concrete bytecode-mode build context with a pre-existing `prev-key`
entry, as a caller nesting this record inside another record would hold. -/
def ctxWithPrev : AwkwardContext :=
  { forth := some ⟨0, [], [], []⟩, indexFormat := "i64", prevKey := some "node0",
    tobjectHeader := true }

/-- A concrete native-mode build context whose `tobject_header` flag is
false. -/
def ctxNoHeader : AwkwardContext :=
  { forth := none, indexFormat := "i64", prevKey := none, tobjectHeader := false }

/-! ## Theorems -/

/-- C2: decoding a ScalarRef with `memberwise = false` from any stream with
at least 12 bytes after the cursor consumes exactly 12 bytes (independent of
content), advances the cursor by exactly 12, and returns as `ref` the 4-byte
big-endian unsigned integer at offset 2 — for any contents of the reserved
bytes at offsets 0–1 and 6–11. -/
theorem tref_read_members_layout (r : Reader) (h : r.index + 12 ≤ r.data.length) :
    Model_TRef.read_members false r =
      (.ok ⟨be4 r.data (r.index + 2)⟩, { r with index := r.index + 12 }) := by
  unfold Model_TRef.read_members Reader.fieldTRefFormat1
  rw [if_neg Bool.false_ne_true, if_pos h]

/-- Witness for C2, on the spec's example stream
`00 00 00 00 00 01 00 00 00 00 00 00`: the decode succeeds with `ref = 1`
and the cursor advances from 0 to 12. -/
theorem tref_read_members_layout_witness :
    Model_TRef.read_members false ⟨[0, 0, 0, 0, 0, 1, 0, 0, 0, 0, 0, 0], 0⟩ =
      (.ok ⟨1⟩, ⟨[0, 0, 0, 0, 0, 1, 0, 0, 0, 0, 0, 0], 12⟩) :=
  tref_read_members_layout ⟨[0, 0, 0, 0, 0, 1, 0, 0, 0, 0, 0, 0], 0⟩ (by decide)

/-- C3: decoding either record type with `memberwise = true` fails with the
member-wise rejection (`UnsupportedSerializationMode`) for every byte
stream, and the returned cursor is unchanged — the failure occurs before
any bytes are consumed. -/
theorem memberwise_rejected (r : Reader) :
    Model_TRef.read_members true r = (.error .unsupportedSerializationMode, r) ∧
    Model_TRefArray.read_members true r = (.error .unsupportedSerializationMode, r) :=
  ⟨rfl, rfl⟩

/-- C7: the strided schema for the scalar-reference record is exactly the
flat ordered field list `@pidf : >u2`, `ref : >u4`, `@other1 : >u2`,
`@other2 : >u4` — all big-endian — and the field widths sum to 12, so the
consecutive fields cover every byte of the 12-byte record with no gaps. -/
theorem tref_strided_layout :
    Model_TRef.strided_interpretation.members =
      [("@pidf", ⟨true, "u", 2⟩), ("ref", ⟨true, "u", 4⟩),
       ("@other1", ⟨true, "u", 2⟩), ("@other2", ⟨true, "u", 4⟩)] ∧
    (Model_TRef.strided_interpretation.members.map (fun m => m.2.itemsize)).sum = 12 ∧
    (Model_TRef.strided_interpretation.members.all (fun m => m.2.bigEndian)) = true :=
  ⟨rfl, rfl, rfl⟩

/-- C10: every decoded ArrayRef is a consistent read-only sequence view of
its refs: its length equals the length of `refs`, and every in-range index
reads the same element through `__getitem__` and through `refs`. -/
theorem trefarray_sequence_view (m : Model_TRefArray) :
    m.len = m.refs.length ∧ ∀ i : Nat, i < m.len → m.getitem i = m.refs[i]? :=
  ⟨rfl, fun _ _ => rfl⟩

/-- Witness for C10 on the concrete decoded value `⟨[], 1, [7]⟩`. -/
theorem trefarray_sequence_view_witness :
    (0 < (Model_TRefArray.mk [] 1 [7]).len) ∧
      (Model_TRefArray.mk [] 1 [7]).getitem 0 = (Model_TRefArray.mk [] 1 [7]).refs[0]? :=
  ⟨by decide, (trefarray_sequence_view (Model_TRefArray.mk [] 1 [7])).2 0 (by decide)⟩

/-- C5: in bytecode mode every ArrayRef schema build allocates a contiguous
block of exactly 6 node keys from the counter: with base key
`k = get_last_key`, node `k+1` is the record, `k+2`/`k+3` are the name
string's list and content nodes, `k+4` is the size scalar, `k+5`/`k+6` are
the refs list's container and content nodes; the counter leaves the build
at `k+6`, so a second ArrayRef record built in the same context has base
key `k+6` — the first record's base key plus 6 — and its record node is
`k+6+1`. -/
theorem trefarray_forth_key_block (cls cls2 : Nat) (f : ForthObj) (idx : String)
    (pk : Option String) (th : Bool) :
    (Model_TRefArray.awkward_form cls ⟨some f, idx, pk, th⟩).1 =
      Form.record
        [("fName", Form.listOffset idx
            (Form.numpy "uint8" [("__array__", ParamVal.str "char")]
              (some (nodeKeyName (f.getLastKey + 3))))
            [("__array__", ParamVal.str "string"),
             ("uproot", ParamVal.uprootDict "string" false "1-5")]
            (some (nodeKeyName (f.getLastKey + 2)))),
         ("fSize", Form.numpy "int32" [] (some (nodeKeyName (f.getLastKey + 4)))),
         ("refs", Form.listOffset idx
            (Form.numpy "int32" [] (some (nodeKeyName (f.getLastKey + 6))))
            [] (some (nodeKeyName (f.getLastKey + 5))))]
        [("__record__", ParamVal.str "TRefArray")]
        (some (nodeKeyName (f.getLastKey + 1))) ∧
    ((Model_TRefArray.awkward_form cls ⟨some f, idx, pk, th⟩).2.forth.map
        ForthObj.getLastKey) = some (f.getLastKey + 6) ∧
    (Model_TRefArray.awkward_form cls2
        (Model_TRefArray.awkward_form cls ⟨some f, idx, pk, th⟩).2).1.formKey =
      some (nodeKeyName (f.getLastKey + 6 + 1)) :=
  ⟨rfl, rfl, rfl⟩

/-- C6: for the same ArrayRef definition, the bytecode-mode schema equals
the native-mode schema once the bytecode-only node-key metadata is stripped
— the same logical fields `fName`, `fSize`, `refs` with the same nesting
and the same parameters, regardless of the two contexts' `prev-key` and
`tobject_header` state. -/
theorem trefarray_native_forth_equiv (cls : Nat) (f : ForthObj) (idx : String)
    (pk pk' : Option String) (th th' : Bool) :
    Form.stripKeys (Model_TRefArray.awkward_form cls ⟨some f, idx, pk, th⟩).1 =
      (Model_TRefArray.awkward_form cls ⟨none, idx, pk', th'⟩).1 :=
  rfl

/-- C8 (amended): in bytecode mode the ArrayRef schema builder always
deletes the `prev-key` entry at the end of the build, so the context
returned to the caller carries `prev-key = none` — no residual
previous-key state from this record, but also not the caller's previous
value. -/
theorem trefarray_forth_clears_prev (cls : Nat) (f : ForthObj) (idx : String)
    (pk : Option String) (th : Bool) :
    (Model_TRefArray.awkward_form cls ⟨some f, idx, pk, th⟩).2.prevKey = none :=
  rfl

/-- Counterexample for C8 as stated: a caller whose context carries a
pre-existing `prev-key` entry (`some "node0"`) does not see the same
previous-key state after the build — the builder deletes the entry rather
than restoring it. -/
theorem trefarray_prev_not_restored :
    (Model_TRefArray.awkward_form 0 ctxWithPrev).2.prevKey ≠ ctxWithPrev.prevKey := by
  decide

/-- C9 (amended): in native mode the ScalarRef schema is a record whose
contents mirror the strided layout — `@pidf` (u16), `ref` (u32), `@other1`
(u16), `@other2` (u32) — when the context requests the `tobject` header;
with `tobject_header` false the record is empty.  Building it returns only
the tree (no context is modified). -/
theorem tref_awkward_form_with_header (fo : Option ForthObj) (idx : String)
    (pk : Option String) :
    Model_TRef.awkward_form ⟨fo, idx, pk, true⟩ =
      Form.record
        [("@pidf", Form.numpy "uint16" [] none),
         ("ref", Form.numpy "uint32" [] none),
         ("@other1", Form.numpy "uint16" [] none),
         ("@other2", Form.numpy "uint32" [] none)]
        [("__record__", ParamVal.str "TRef")] none :=
  rfl

/-- Counterexample for C9 as stated: with `tobject_header = false` the
ScalarRef schema's record has no fields at all, not the four claimed
fields. -/
theorem tref_awkward_form_no_header :
    ((Model_TRef.awkward_form ctxNoHeader).recordContents).length ≠ 4 := by
  decide

/-! ### Round-trip lemmas for the ArrayRef decode -/

lemma encInt32_length (v : Int) : (encInt32 v).length = 4 := rfl

lemma encodeName_length_short (name : List Nat) (h : name.length < 255) :
    (encodeName name).length = name.length + 1 := by
  simp [encodeName, h]

lemma encodeName_length_wide (name : List Nat) (h : ¬ name.length < 255) :
    (encodeName name).length = name.length + 5 := by
  simp only [encodeName, if_neg h, List.length_cons, List.length_append]
  show (be4enc name.length).length + name.length + 1 = name.length + 5
  simp [be4enc]; omega

lemma encodeRefs_length (refs : List Int) : (encodeRefs refs).length = 4 * refs.length := by
  induction refs with
  | nil => rfl
  | cons v t ih =>
    simp only [encodeRefs, List.length_append, encInt32_length, List.length_cons, ih]
    omega

lemma getD_middle (pre l rest : List Nat) (k : Nat) (h : k < l.length) :
    (pre ++ (l ++ rest)).getD (pre.length + k) 0 = l.getD k 0 := by
  rw [List.getD_append_right pre (l ++ rest) 0 (pre.length + k) (Nat.le_add_right _ _),
    Nat.add_sub_cancel_left, List.getD_append l rest 0 k h]

lemma be4_middle (pre l rest : List Nat) (k : Nat) (h : k + 4 ≤ l.length) :
    be4 (pre ++ (l ++ rest)) (pre.length + k) = be4 l k := by
  unfold be4
  have e1 : pre.length + k + 1 = pre.length + (k + 1) := by omega
  have e2 : pre.length + k + 2 = pre.length + (k + 2) := by omega
  have e3 : pre.length + k + 3 = pre.length + (k + 3) := by omega
  rw [e1, e2, e3, getD_middle pre l rest k (by omega),
    getD_middle pre l rest (k + 1) (by omega), getD_middle pre l rest (k + 2) (by omega),
    getD_middle pre l rest (k + 3) (by omega)]

lemma be4_be4enc (n : Nat) (h : n < 2 ^ 32) : be4 (be4enc n) 0 = n := by
  show n / 2 ^ 24 % 256 * 2 ^ 24 + n / 2 ^ 16 % 256 * 2 ^ 16 + n / 2 ^ 8 % 256 * 2 ^ 8
      + n % 256 = n
  omega

lemma decodeSigned32_encInt32 (v : Int) (h1 : -(2 ^ 31) ≤ v) (h2 : v < 2 ^ 31) :
    decodeSigned32 ((v % 2 ^ 32).toNat) = v := by
  unfold decodeSigned32
  split <;> omega

lemma skip_ok (r : Reader) (n : Nat) (h : r.index + n ≤ r.data.length) :
    r.skip n = .ok { r with index := r.index + n } := by
  unfold Reader.skip
  rw [if_pos h]

lemma readByte_middle (pre l rest : List Nat) (hl : 0 < l.length) :
    Reader.readByte ⟨pre ++ (l ++ rest), pre.length⟩ =
      .ok (l.getD 0 0, ⟨pre ++ (l ++ rest), pre.length + 1⟩) := by
  have hlen : pre.length + 1 ≤ (pre ++ (l ++ rest)).length := by
    simp only [List.length_append]; omega
  have hg := getD_middle pre l rest 0 hl
  simp only [Nat.add_zero] at hg
  unfold Reader.readByte
  rw [if_pos hlen, hg]

lemma readBe4_middle (pre rest : List Nat) (n : Nat) (hn : n < 2 ^ 32) :
    Reader.readBe4 ⟨pre ++ (be4enc n ++ rest), pre.length⟩ =
      .ok (n, ⟨pre ++ (be4enc n ++ rest), pre.length + 4⟩) := by
  have hlen : pre.length + 4 ≤ (pre ++ (be4enc n ++ rest)).length := by
    simp only [List.length_append, be4enc, List.length_cons]; omega
  have hb := be4_middle pre (be4enc n) rest 0 (by simp [be4enc])
  simp only [Nat.add_zero] at hb
  unfold Reader.readBe4
  rw [if_pos hlen, hb, be4_be4enc n hn]

lemma readBytes_middle (pre l rest : List Nat) :
    Reader.readBytes ⟨pre ++ (l ++ rest), pre.length⟩ l.length =
      .ok (l, ⟨pre ++ (l ++ rest), pre.length + l.length⟩) := by
  have hlen : pre.length + l.length ≤ (pre ++ (l ++ rest)).length := by
    simp only [List.length_append]; omega
  unfold Reader.readBytes
  rw [if_pos hlen]
  rw [show (pre ++ (l ++ rest)).drop pre.length = l ++ rest from List.drop_left pre (l ++ rest)]
  rw [show (l ++ rest).take l.length = l from List.take_left l rest]

lemma string_middle (pre name rest : List Nat) (h : name.length < 2 ^ 32) :
    Reader.string ⟨pre ++ (encodeName name ++ rest), pre.length⟩ =
      .ok (name,
        ⟨pre ++ (encodeName name ++ rest), pre.length + (encodeName name).length⟩) := by
  by_cases hs : name.length < 255
  · have hb := readByte_middle pre (encodeName name) rest
      (by rw [encodeName_length_short name hs]; omega)
    rw [show (encodeName name).getD 0 0 = name.length from by simp [encodeName, hs]] at hb
    unfold Reader.string
    simp only [hb]
    rw [if_neg (by omega : ¬ name.length = 255)]
    have hD : pre ++ (encodeName name ++ rest) = (pre ++ [name.length]) ++ (name ++ rest) := by
      simp [encodeName, hs, List.append_assoc]
    have hi1 : pre.length + 1 = (pre ++ [name.length]).length := by simp
    have hi2 : pre.length + (encodeName name).length =
        (pre ++ [name.length]).length + name.length := by
      simp only [List.length_append, List.length_cons, List.length_nil,
        encodeName_length_short name hs]
      omega
    rw [hD, hi1, hi2]
    exact readBytes_middle (pre ++ [name.length]) name rest
  · have hb := readByte_middle pre (encodeName name) rest
      (by rw [encodeName_length_wide name hs]; omega)
    rw [show (encodeName name).getD 0 0 = 255 from by simp [encodeName, hs]] at hb
    unfold Reader.string
    simp only [hb]
    simp only [if_true]
    have hD1 : pre ++ (encodeName name ++ rest) =
        (pre ++ [255]) ++ (be4enc name.length ++ (name ++ rest)) := by
      simp [encodeName, hs, List.append_assoc]
    have hbe := readBe4_middle (pre ++ [255]) (name ++ rest) name.length h
    rw [← hD1] at hbe
    have hL : (pre ++ [255]).length = pre.length + 1 := by simp
    rw [hL] at hbe
    simp only [hbe]
    have hD2 : pre ++ (encodeName name ++ rest) =
        (pre ++ 255 :: be4enc name.length) ++ (name ++ rest) := by
      simp [encodeName, hs, be4enc, List.append_assoc]
    have hi2 : pre.length + 1 + 4 = (pre ++ 255 :: be4enc name.length).length := by
      simp [be4enc]
    have hi3 : pre.length + (encodeName name).length =
        (pre ++ 255 :: be4enc name.length).length + name.length := by
      simp only [List.length_append, List.length_cons, encodeName_length_wide name hs]
      simp [be4enc]
      omega
    rw [hD2, hi2, hi3]
    exact readBytes_middle (pre ++ 255 :: be4enc name.length) name rest

lemma decode_head (v : Int) (h1 : -(2 ^ 31) ≤ v) (h2 : v < 2 ^ 31) :
    decodeSigned32 (be4 (encInt32 v) 0) = v := by
  have hn : ((v % (2 : Int) ^ 32)).toNat < 2 ^ 32 := by omega
  unfold encInt32
  rw [be4_be4enc _ hn, decodeSigned32_encInt32 v h1 h2]

lemma fieldI4_middle (pre rest : List Nat) (v : Int) (h1 : -(2 ^ 31) ≤ v)
    (h2 : v < 2 ^ 31) :
    Reader.fieldI4 ⟨pre ++ (encInt32 v ++ rest), pre.length⟩ =
      .ok (v, ⟨pre ++ (encInt32 v ++ rest), pre.length + 4⟩) := by
  have hn : ((v % (2 : Int) ^ 32)).toNat < 2 ^ 32 := by omega
  unfold Reader.fieldI4 encInt32
  simp only [readBe4_middle pre rest _ hn]
  rw [decodeSigned32_encInt32 v h1 h2]

lemma readI4Count_middle (refs : List Int) :
    ∀ pre rest : List Nat, (∀ v ∈ refs, -(2 ^ 31) ≤ v ∧ v < 2 ^ 31) →
      readI4Count (pre ++ (encodeRefs refs ++ rest)) pre.length refs.length = refs := by
  induction refs with
  | nil => intro pre rest _; rfl
  | cons v t ih =>
    intro pre rest h
    have hv := h v (List.mem_cons_self v t)
    have hgroup : pre ++ (encodeRefs (v :: t) ++ rest) =
        pre ++ (encInt32 v ++ (encodeRefs t ++ rest)) := by
      simp [encodeRefs, List.append_assoc]
    rw [hgroup]
    simp only [List.length_cons, readI4Count]
    have hhead : decodeSigned32 (be4 (pre ++ (encInt32 v ++ (encodeRefs t ++ rest)))
        pre.length) = v := by
      have hb := be4_middle pre (encInt32 v) (encodeRefs t ++ rest) 0
        (by simp [encInt32_length])
      simp only [Nat.add_zero] at hb
      rw [hb]
      exact decode_head v hv.1 hv.2
    have htail : readI4Count (pre ++ (encInt32 v ++ (encodeRefs t ++ rest)))
        (pre.length + 4) t.length = t := by
      rw [show pre ++ (encInt32 v ++ (encodeRefs t ++ rest)) =
          (pre ++ encInt32 v) ++ (encodeRefs t ++ rest) from by
        simp [List.append_assoc]]
      rw [show pre.length + 4 = (pre ++ encInt32 v).length from by
        simp [encInt32_length]]
      exact ih (pre ++ encInt32 v) rest (fun w hw => h w (List.mem_cons_of_mem v hw))
    rw [hhead, htail]

lemma array_middle (pre rest : List Nat) (refs : List Int)
    (hr : ∀ v ∈ refs, -(2 ^ 31) ≤ v ∧ v < 2 ^ 31) :
    Reader.array ⟨pre ++ (encodeRefs refs ++ rest), pre.length⟩ (refs.length : Int) =
      .ok (refs, ⟨pre ++ (encodeRefs refs ++ rest), pre.length + 4 * refs.length⟩) := by
  have htn : ((refs.length : Int)).toNat = refs.length := by omega
  have hbound : pre.length + 4 * ((refs.length : Int)).toNat ≤
      (pre ++ (encodeRefs refs ++ rest)).length := by
    rw [htn]
    simp only [List.length_append, encodeRefs_length]
    omega
  unfold Reader.array
  rw [if_pos (by omega : (0 : Int) ≤ (refs.length : Int)), if_pos hbound, htn,
    readI4Count_middle refs pre rest hr]

/-- C1: for every valid byte stream encoding an ArrayRef (any 10-byte
header region, any name below the wide-length bound, any in-range refs)
decoded with `memberwise = false`, the decoder reads, in order: skip 10
bytes, the length-prefixed name, one big-endian 4-byte signed `size`, skip
6 bytes, then exactly `size` big-endian 4-byte signed integers as refs.
The decoded members carry the name, `fSize = len(refs)` and the refs; the
total bytes consumed are `20 + name-byte-length + 4 * size` (the name's
byte length counted with its length prefix); and the decoded result
satisfies `len(refs) = size` — in particular `size = 0` yields an empty
refs sequence, not an error. -/
theorem trefarray_read_members_valid (hdr name mid rest : List Nat) (refs : List Int)
    (hh : hdr.length = 10) (hm : mid.length = 6) (hn : name.length < 2 ^ 32)
    (hr : ∀ v ∈ refs, -(2 ^ 31) ≤ v ∧ v < 2 ^ 31) (hsz : refs.length < 2 ^ 31) :
    Model_TRefArray.read_members false ⟨encodeArrayRef hdr name mid refs ++ rest, 0⟩ =
      (.ok ⟨name, (refs.length : Int), refs⟩,
       ⟨encodeArrayRef hdr name mid refs ++ rest,
        20 + (encodeName name).length + 4 * refs.length⟩) ∧
    ((Model_TRefArray.mk name (refs.length : Int) refs).len : Int) =
      (Model_TRefArray.mk name (refs.length : Int) refs).fSize := by
  refine ⟨?_, rfl⟩
  have hSlen : (encodeArrayRef hdr name mid refs ++ rest).length =
      10 + (encodeName name).length + 4 + 6 + 4 * refs.length + rest.length := by
    simp only [encodeArrayRef, List.length_append, encInt32_length, encodeRefs_length,
      hh, hm]
    omega
  have e1 : Reader.skip ⟨encodeArrayRef hdr name mid refs ++ rest, 0⟩ 10 =
      .ok ⟨encodeArrayRef hdr name mid refs ++ rest, 10⟩ :=
    skip_ok _ 10 (by
      show 0 + 10 ≤ (encodeArrayRef hdr name mid refs ++ rest).length
      rw [hSlen]; omega)
  have hS2 : encodeArrayRef hdr name mid refs ++ rest =
      hdr ++ (encodeName name ++
        (encInt32 (refs.length : Int) ++ (mid ++ (encodeRefs refs ++ rest)))) := by
    simp [encodeArrayRef, List.append_assoc]
  have e2 := string_middle hdr name
    (encInt32 (refs.length : Int) ++ (mid ++ (encodeRefs refs ++ rest))) hn
  rw [← hS2] at e2
  rw [hh] at e2
  have hS3 : encodeArrayRef hdr name mid refs ++ rest =
      (hdr ++ encodeName name) ++
        (encInt32 (refs.length : Int) ++ (mid ++ (encodeRefs refs ++ rest))) := by
    simp [encodeArrayRef, List.append_assoc]
  have e3 := fieldI4_middle (hdr ++ encodeName name) (mid ++ (encodeRefs refs ++ rest))
    (refs.length : Int) (by omega) (by omega)
  rw [← hS3] at e3
  have hl3 : (hdr ++ encodeName name).length = 10 + (encodeName name).length := by
    simp [hh]
  rw [hl3] at e3
  have e4 : Reader.skip ⟨encodeArrayRef hdr name mid refs ++ rest,
      10 + (encodeName name).length + 4⟩ 6 =
      .ok ⟨encodeArrayRef hdr name mid refs ++ rest,
        10 + (encodeName name).length + 4 + 6⟩ :=
    skip_ok _ 6 (by
      show 10 + (encodeName name).length + 4 + 6 ≤
        (encodeArrayRef hdr name mid refs ++ rest).length
      rw [hSlen]; omega)
  have hS5 : encodeArrayRef hdr name mid refs ++ rest =
      (hdr ++ encodeName name ++ encInt32 (refs.length : Int) ++ mid) ++
        (encodeRefs refs ++ rest) := by
    simp [encodeArrayRef, List.append_assoc]
  have e5 := array_middle (hdr ++ encodeName name ++ encInt32 (refs.length : Int) ++ mid)
    rest refs hr
  rw [← hS5] at e5
  have hl5 : (hdr ++ encodeName name ++ encInt32 (refs.length : Int) ++ mid).length =
      10 + (encodeName name).length + 4 + 6 := by
    simp only [List.length_append, encInt32_length, hh, hm]
  rw [hl5] at e5
  unfold Model_TRefArray.read_members
  rw [if_neg Bool.false_ne_true]
  simp only [e1, e2, e3, e4, e5]
  have hidx : 10 + (encodeName name).length + 4 + 6 + 4 * refs.length =
      20 + (encodeName name).length + 4 * refs.length := by omega
  rw [hidx]

/-- Witness for C1, on an ArrayRef with one-byte name `[65]` and
`size = 0`: the decode succeeds, yields the empty refs sequence, and
consumes `20 + 2 + 0 = 22` bytes. -/
theorem trefarray_read_members_valid_witness :
    Model_TRefArray.read_members false
        ⟨encodeArrayRef [0, 0, 0, 0, 0, 0, 0, 0, 0, 0] [65] [0, 0, 0, 0, 0, 0] [] ++ [], 0⟩ =
      (.ok ⟨[65], 0, []⟩,
       ⟨encodeArrayRef [0, 0, 0, 0, 0, 0, 0, 0, 0, 0] [65] [0, 0, 0, 0, 0, 0] [] ++ [], 22⟩) ∧
    ((Model_TRefArray.mk [65] 0 []).len : Int) = (Model_TRefArray.mk [65] 0 []).fSize :=
  trefarray_read_members_valid [0, 0, 0, 0, 0, 0, 0, 0, 0, 0] [65] [0, 0, 0, 0, 0, 0] [] []
    (by decide) (by decide) (by decide) (by decide) (by decide)

/-- C4 (amended): the decoder performs no negative-size check — for every
ArrayRef stream whose decoded `size` field is negative, the array read
covers a byte range whose end precedes its start, so decoding succeeds
with an empty refs sequence rather than failing with `CorruptRecord`. -/
theorem trefarray_negative_size (hdr name mid rest : List Nat) (sz : Int)
    (hh : hdr.length = 10) (hm : mid.length = 6) (hn : name.length < 2 ^ 32)
    (hneg : sz < 0) (hlo : -(2 ^ 31) ≤ sz) :
    (Model_TRefArray.read_members false
        ⟨encodeArrayRefRaw hdr name mid sz ++ rest, 0⟩).1 =
      .ok ⟨name, sz, []⟩ := by
  have hSlen : (encodeArrayRefRaw hdr name mid sz ++ rest).length =
      10 + (encodeName name).length + 4 + 6 + rest.length := by
    simp only [encodeArrayRefRaw, List.length_append, encInt32_length, hh, hm]
    omega
  have e1 : Reader.skip ⟨encodeArrayRefRaw hdr name mid sz ++ rest, 0⟩ 10 =
      .ok ⟨encodeArrayRefRaw hdr name mid sz ++ rest, 10⟩ :=
    skip_ok _ 10 (by
      show 0 + 10 ≤ (encodeArrayRefRaw hdr name mid sz ++ rest).length
      rw [hSlen]; omega)
  have hS2 : encodeArrayRefRaw hdr name mid sz ++ rest =
      hdr ++ (encodeName name ++ (encInt32 sz ++ (mid ++ rest))) := by
    simp [encodeArrayRefRaw, List.append_assoc]
  have e2 := string_middle hdr name (encInt32 sz ++ (mid ++ rest)) hn
  rw [← hS2] at e2
  rw [hh] at e2
  have hS3 : encodeArrayRefRaw hdr name mid sz ++ rest =
      (hdr ++ encodeName name) ++ (encInt32 sz ++ (mid ++ rest)) := by
    simp [encodeArrayRefRaw, List.append_assoc]
  have e3 := fieldI4_middle (hdr ++ encodeName name) (mid ++ rest) sz hlo (by omega)
  rw [← hS3] at e3
  have hl3 : (hdr ++ encodeName name).length = 10 + (encodeName name).length := by
    simp [hh]
  rw [hl3] at e3
  have e4 : Reader.skip ⟨encodeArrayRefRaw hdr name mid sz ++ rest,
      10 + (encodeName name).length + 4⟩ 6 =
      .ok ⟨encodeArrayRefRaw hdr name mid sz ++ rest,
        10 + (encodeName name).length + 4 + 6⟩ :=
    skip_ok _ 6 (by
      show 10 + (encodeName name).length + 4 + 6 ≤
        (encodeArrayRefRaw hdr name mid sz ++ rest).length
      rw [hSlen]; omega)
  have e5 : Reader.array ⟨encodeArrayRefRaw hdr name mid sz ++ rest,
      10 + (encodeName name).length + 4 + 6⟩ sz =
      .ok ([], ⟨encodeArrayRefRaw hdr name mid sz ++ rest,
        (((10 + (encodeName name).length + 4 + 6 : Nat) : Int) + 4 * sz).toNat⟩) := by
    unfold Reader.array
    rw [if_neg (by omega : ¬ (0 : Int) ≤ sz)]
  unfold Model_TRefArray.read_members
  rw [if_neg Bool.false_ne_true]
  simp only [e1, e2, e3, e4, e5]

/-- Witness for C4's amended theorem, on a stream with empty name and
declared `size = -1`: decoding succeeds with empty refs. -/
theorem trefarray_negative_size_witness :
    (Model_TRefArray.read_members false
        ⟨encodeArrayRefRaw [0, 0, 0, 0, 0, 0, 0, 0, 0, 0] [] [0, 0, 0, 0, 0, 0] (-1) ++ [],
         0⟩).1 =
      .ok ⟨[], -1, []⟩ :=
  trefarray_negative_size [0, 0, 0, 0, 0, 0, 0, 0, 0, 0] [] [0, 0, 0, 0, 0, 0] [] (-1)
    (by decide) (by decide) (by decide) (by decide) (by decide)

/-- Counterexample for C4 as stated: on the concrete ArrayRef stream whose
declared `size` is `-1`, the decoder does not reject the record with
`CorruptRecord` — it succeeds and returns an empty refs sequence. -/
theorem trefarray_no_negative_size_check :
    (Model_TRefArray.read_members false
        ⟨encodeArrayRefRaw [0, 0, 0, 0, 0, 0, 0, 0, 0, 0] [] [0, 0, 0, 0, 0, 0] (-1),
         0⟩).1 ≠
      .error .corruptRecord ∧
    (Model_TRefArray.read_members false
        ⟨encodeArrayRefRaw [0, 0, 0, 0, 0, 0, 0, 0, 0, 0] [] [0, 0, 0, 0, 0, 0] (-1),
         0⟩).1 =
      .ok ⟨[], -1, []⟩ := by
  constructor
  · decide
  · decide

end Uproot
